import Mathlib

/-!
Verification of the actuator-disc wind-turbine model and Betz-limit test
(`openmdao/test_suite/test_examples/betz_limit.py`).

The component `ActuatorDisc` declares four scalar inputs (`a`, `Area`,
`rho`, `Vu`) and six scalar outputs (`Vr`, `Vd`, `Ct`, `thrust`, `Cp`,
`power`).  Its `compute` method evaluates closed-form actuator-disc
equations and its `compute_partials` method supplies an analytical
Jacobian.  All scalar arithmetic is embedded over `ℚ`; the Python floats
`.5`, `2.0`, `4.0`, ... are the exact rationals written in the source, so
the embedding over `ℚ` computes the same real-number values the formulas
denote.
-/

namespace BetzLimit

/-- The four scalar inputs of `ActuatorDisc`, as declared in `setup`. -/
structure Inputs where
  a : ℚ
  Area : ℚ
  rho : ℚ
  Vu : ℚ
  deriving DecidableEq, Repr

/-- The six scalar outputs of `ActuatorDisc`, as declared in `setup`. -/
structure Outputs where
  Vr : ℚ
  Vd : ℚ
  Ct : ℚ
  thrust : ℚ
  Cp : ℚ
  power : ℚ
  deriving DecidableEq, Repr

/-- Forward evaluation `ActuatorDisc.compute`, transcribed line by line:

    a = inputs['a']; Vu = inputs['Vu']
    qA = .5 * inputs['rho'] * inputs['Area'] * Vu ** 2
    outputs['Vd'] = Vd = Vu * (1 - 2 * a)
    outputs['Vr'] = .5 * (Vu + Vd)
    outputs['Ct'] = Ct = 4 * a * (1 - a)
    outputs['thrust'] = Ct * qA
    outputs['Cp'] = Cp = Ct * (1 - a)
    outputs['power'] = Cp * qA * Vu
-/
def compute (inputs : Inputs) : Outputs :=
  let a := inputs.a
  let Vu := inputs.Vu
  let qA := 1/2 * inputs.rho * inputs.Area * Vu ^ 2
  let Vd := Vu * (1 - 2 * a)
  let Vr := 1/2 * (Vu + Vd)
  let Ct := 4 * a * (1 - a)
  let thrust := Ct * qA
  let Cp := Ct * (1 - a)
  let power := Cp * qA * Vu
  { Vr := Vr, Vd := Vd, Ct := Ct, thrust := thrust, Cp := Cp, power := power }

/-- The Jacobian entries that `ActuatorDisc.compute_partials` assigns:
one field per `J[output, input]` assignment in the source. -/
structure Jacobian where
  Vr_a : ℚ
  Vr_Vu : ℚ
  Vd_a : ℚ
  Ct_a : ℚ
  thrust_a : ℚ
  thrust_Area : ℚ
  thrust_rho : ℚ
  thrust_Vu : ℚ
  Cp_a : ℚ
  power_a : ℚ
  power_Area : ℚ
  power_rho : ℚ
  power_Vu : ℚ
  deriving DecidableEq, Repr

/-- Partial-derivative evaluation `ActuatorDisc.compute_partials`,
transcribed line by line, including its pre-computed quantities
`a_times_area`, `one_minus_a`, `a_area_rho_vu` and the fact that
`J['thrust','a']` is computed from the just-assigned `J['Ct','a']`. -/
def compute_partials (inputs : Inputs) : Jacobian :=
  let a := inputs.a
  let Vu := inputs.Vu
  let Area := inputs.Area
  let rho := inputs.rho
  let a_times_area := a * Area
  let one_minus_a := 1 - a
  let a_area_rho_vu := a_times_area * rho * Vu
  let ct_a := 4 - 8 * a
  { Vr_a := -Vu
    Vr_Vu := one_minus_a
    Vd_a := -2 * Vu
    Ct_a := ct_a
    thrust_a := 1/2 * rho * Vu ^ 2 * Area * ct_a
    thrust_Area := 2 * Vu ^ 2 * a * rho * one_minus_a
    thrust_rho := 2 * a_times_area * Vu ^ 2 * one_minus_a
    thrust_Vu := 4 * a_area_rho_vu * one_minus_a
    Cp_a := 4 * a * (2 * a - 2) + 4 * one_minus_a ^ 2
    power_a := 2 * Area * Vu ^ 3 * a * rho * (2 * a - 2)
               + 2 * Area * Vu ^ 3 * rho * one_minus_a ^ 2
    power_Area := 2 * Vu ^ 3 * a * rho * one_minus_a ^ 2
    power_rho := 2 * a_times_area * Vu ^ 3 * one_minus_a ^ 2
    power_Vu := 6 * Area * Vu ^ 2 * a * rho * one_minus_a ^ 2 }

/-- Names of the six declared outputs. -/
inductive OutVar where
  | Vr | Vd | Ct | thrust | Cp | power
  deriving DecidableEq, Repr

/-- Names of the four declared inputs. -/
inductive InVar where
  | a | Area | rho | Vu
  deriving DecidableEq, Repr

/-- The value `compute` puts in a named output slot. -/
def outputVal (o : OutVar) (x : Inputs) : ℚ :=
  match o with
  | .Vr => (compute x).Vr
  | .Vd => (compute x).Vd
  | .Ct => (compute x).Ct
  | .thrust => (compute x).thrust
  | .Cp => (compute x).Cp
  | .power => (compute x).power

/-- Replace one named input of an input quadruple by a new value. -/
def setIn (i : InVar) (x : Inputs) (t : ℚ) : Inputs :=
  match i with
  | .a => { x with a := t }
  | .Area => { x with Area := t }
  | .rho => { x with rho := t }
  | .Vu => { x with Vu := t }

/-- Read one named input of an input quadruple. -/
def getIn (i : InVar) (x : Inputs) : ℚ :=
  match i with
  | .a => x.a
  | .Area => x.Area
  | .rho => x.rho
  | .Vu => x.Vu

/-- The Jacobian entry `compute_partials` supplies for a given
output/input pair: `some` of the assigned value for the thirteen pairs
assigned in the source, `none` for the eleven pairs it never assigns. -/
def jEntry (J : Jacobian) (p : OutVar × InVar) : Option ℚ :=
  match p with
  | (.Vr, .a) => some J.Vr_a
  | (.Vr, .Vu) => some J.Vr_Vu
  | (.Vd, .a) => some J.Vd_a
  | (.Ct, .a) => some J.Ct_a
  | (.thrust, .a) => some J.thrust_a
  | (.thrust, .Area) => some J.thrust_Area
  | (.thrust, .rho) => some J.thrust_rho
  | (.thrust, .Vu) => some J.thrust_Vu
  | (.Cp, .a) => some J.Cp_a
  | (.power, .a) => some J.power_a
  | (.power, .Area) => some J.power_Area
  | (.power, .rho) => some J.power_rho
  | (.power, .Vu) => some J.power_Vu
  | _ => none

/-- Stateful rendering of `ActuatorDisc.compute`: the framework hands the
method a mutable `inputs` map and a mutable `outputs` map; the method reads
input keys and assigns the six output keys in source order, returning both
maps as they stand afterwards. -/
def computeDict (inputs : String → ℚ) (outputs : String → ℚ) :
    (String → ℚ) × (String → ℚ) :=
  let a := inputs "a"
  let Vu := inputs "Vu"
  let qA := 1/2 * inputs "rho" * inputs "Area" * Vu ^ 2
  let Vd := Vu * (1 - 2 * a)
  let outputs := Function.update outputs "Vd" Vd
  let outputs := Function.update outputs "Vr" (1/2 * (Vu + Vd))
  let Ct := 4 * a * (1 - a)
  let outputs := Function.update outputs "Ct" Ct
  let outputs := Function.update outputs "thrust" (Ct * qA)
  let Cp := Ct * (1 - a)
  let outputs := Function.update outputs "Cp" Cp
  let outputs := Function.update outputs "power" (Cp * qA * Vu)
  (inputs, outputs)

/-- The six output keys `compute` assigns, in assignment order. -/
def outputKeys : List String := ["Vd", "Vr", "Ct", "thrust", "Cp", "power"]

/-- Stateful rendering of `ActuatorDisc.compute_partials`: the framework
hands the method the `inputs` map and a mutable Jacobian map `J` keyed by
(output, input) name pairs; the method assigns thirteen entries in source
order (reading back `J ("Ct", "a")` for the `thrust`/`a` entry, as the
source does) and both maps are returned as they stand afterwards. -/
def computePartialsDict (inputs : String → ℚ) (J : String × String → ℚ) :
    (String → ℚ) × (String × String → ℚ) :=
  let a := inputs "a"
  let Vu := inputs "Vu"
  let Area := inputs "Area"
  let rho := inputs "rho"
  let a_times_area := a * Area
  let one_minus_a := 1 - a
  let a_area_rho_vu := a_times_area * rho * Vu
  let J := Function.update J ("Vr", "a") (-Vu)
  let J := Function.update J ("Vr", "Vu") one_minus_a
  let J := Function.update J ("Vd", "a") (-2 * Vu)
  let J := Function.update J ("Ct", "a") (4 - 8 * a)
  let J := Function.update J ("thrust", "a") (1/2 * rho * Vu ^ 2 * Area * J ("Ct", "a"))
  let J := Function.update J ("thrust", "Area") (2 * Vu ^ 2 * a * rho * one_minus_a)
  let J := Function.update J ("thrust", "rho") (2 * a_times_area * Vu ^ 2 * one_minus_a)
  let J := Function.update J ("thrust", "Vu") (4 * a_area_rho_vu * one_minus_a)
  let J := Function.update J ("Cp", "a") (4 * a * (2 * a - 2) + 4 * one_minus_a ^ 2)
  let J := Function.update J ("power", "a")
    (2 * Area * Vu ^ 3 * a * rho * (2 * a - 2) + 2 * Area * Vu ^ 3 * rho * one_minus_a ^ 2)
  let J := Function.update J ("power", "Area") (2 * Vu ^ 3 * a * rho * one_minus_a ^ 2)
  let J := Function.update J ("power", "rho") (2 * a_times_area * Vu ^ 3 * one_minus_a ^ 2)
  let J := Function.update J ("power", "Vu") (6 * Area * Vu ^ 2 * a * rho * one_minus_a ^ 2)
  (inputs, J)

/-- The thirteen Jacobian keys `compute_partials` assigns, in source order. -/
def jacobianKeys : List (String × String) :=
  [("Vr", "a"), ("Vr", "Vu"), ("Vd", "a"), ("Ct", "a"),
   ("thrust", "a"), ("thrust", "Area"), ("thrust", "rho"), ("thrust", "Vu"),
   ("Cp", "a"),
   ("power", "a"), ("power", "Area"), ("power", "rho"), ("power", "Vu")]

/-- The exact symbolic partial derivative of each output of `compute` with
respect to each input; `truePartial_hasDerivAt` below certifies every
entry against `compute` itself. -/
def truePartial (o : OutVar) (i : InVar) (x : Inputs) : ℚ :=
  match o, i with
  | .Vr, .a => -x.Vu
  | .Vr, .Vu => 1 - x.a
  | .Vd, .a => -2 * x.Vu
  | .Vd, .Vu => 1 - 2 * x.a
  | .Ct, .a => 4 - 8 * x.a
  | .thrust, .a => 2 * x.rho * x.Area * x.Vu ^ 2 * (1 - 2 * x.a)
  | .thrust, .Area => 2 * x.a * (1 - x.a) * x.rho * x.Vu ^ 2
  | .thrust, .rho => 2 * x.a * (1 - x.a) * x.Area * x.Vu ^ 2
  | .thrust, .Vu => 4 * x.a * (1 - x.a) * x.rho * x.Area * x.Vu
  | .Cp, .a => 4 - 16 * x.a + 12 * x.a ^ 2
  | .power, .a => x.rho * x.Area * x.Vu ^ 3 * (2 - 8 * x.a + 6 * x.a ^ 2)
  | .power, .Area => 2 * x.a * (1 - x.a) ^ 2 * x.rho * x.Vu ^ 3
  | .power, .rho => 2 * x.a * (1 - x.a) ^ 2 * x.Area * x.Vu ^ 3
  | .power, .Vu => 6 * x.a * (1 - x.a) ^ 2 * x.rho * x.Area * x.Vu ^ 2
  | _, _ => 0

/-- A cubic polynomial over `ℚ` has the expected derivative. -/
theorem hasDerivAt_cubic (c0 c1 c2 c3 t : ℚ) :
    HasDerivAt (fun s : ℚ => c0 + c1 * s + c2 * s ^ 2 + c3 * s ^ 3)
      (c1 + 2 * c2 * t + 3 * c3 * t ^ 2) t := by
  have h0 : HasDerivAt (fun _ : ℚ => c0) 0 t := hasDerivAt_const t c0
  have h1 : HasDerivAt (fun s : ℚ => c1 * s) c1 t := by
    simpa using (hasDerivAt_id t).const_mul c1
  have h2 : HasDerivAt (fun s : ℚ => c2 * s ^ 2) (c2 * (2 * t)) t := by
    simpa using (hasDerivAt_pow 2 t).const_mul c2
  have h3 : HasDerivAt (fun s : ℚ => c3 * s ^ 3) (c3 * (3 * t ^ 2)) t := by
    simpa using (hasDerivAt_pow 3 t).const_mul c3
  have h := ((h0.add h1).add h2).add h3
  convert h using 1
  ring

/-- Transfer `hasDerivAt_cubic` along a pointwise identity. -/
theorem hasDerivAt_of_cubic_eq (f : ℚ → ℚ) (c0 c1 c2 c3 t d : ℚ)
    (hf : ∀ s, f s = c0 + c1 * s + c2 * s ^ 2 + c3 * s ^ 3)
    (hd : d = c1 + 2 * c2 * t + 3 * c3 * t ^ 2) :
    HasDerivAt f d t := by
  have hfe : f = fun s => c0 + c1 * s + c2 * s ^ 2 + c3 * s ^ 3 := funext hf
  rw [hfe, hd]
  exact hasDerivAt_cubic c0 c1 c2 c3 t

/-- Every entry of `truePartial` is the derivative of the corresponding
output of `compute` with respect to the corresponding input, the other
three inputs held fixed. -/
theorem truePartial_hasDerivAt (o : OutVar) (i : InVar) (x : Inputs) :
    HasDerivAt (fun t => outputVal o (setIn i x t)) (truePartial o i x) (getIn i x) := by
  obtain ⟨a, A, r, V⟩ := x
  cases o <;> cases i
  case mk.Vr.a =>
    exact hasDerivAt_of_cubic_eq _ V (-V) 0 0 _ _
      (fun s => by simp only [outputVal, setIn, compute]; ring)
      (by simp only [truePartial, getIn]; ring)
  case mk.Vr.Area =>
    exact hasDerivAt_of_cubic_eq _ (V * (1 - a)) 0 0 0 _ _
      (fun s => by simp only [outputVal, setIn, compute]; ring)
      (by simp only [truePartial, getIn]; ring)
  case mk.Vr.rho =>
    exact hasDerivAt_of_cubic_eq _ (V * (1 - a)) 0 0 0 _ _
      (fun s => by simp only [outputVal, setIn, compute]; ring)
      (by simp only [truePartial, getIn]; ring)
  case mk.Vr.Vu =>
    exact hasDerivAt_of_cubic_eq _ 0 (1 - a) 0 0 _ _
      (fun s => by simp only [outputVal, setIn, compute]; ring)
      (by simp only [truePartial, getIn]; ring)
  case mk.Vd.a =>
    exact hasDerivAt_of_cubic_eq _ V (-2 * V) 0 0 _ _
      (fun s => by simp only [outputVal, setIn, compute]; ring)
      (by simp only [truePartial, getIn]; ring)
  case mk.Vd.Area =>
    exact hasDerivAt_of_cubic_eq _ (V * (1 - 2 * a)) 0 0 0 _ _
      (fun s => by simp only [outputVal, setIn, compute]; ring)
      (by simp only [truePartial, getIn]; ring)
  case mk.Vd.rho =>
    exact hasDerivAt_of_cubic_eq _ (V * (1 - 2 * a)) 0 0 0 _ _
      (fun s => by simp only [outputVal, setIn, compute]; ring)
      (by simp only [truePartial, getIn]; ring)
  case mk.Vd.Vu =>
    exact hasDerivAt_of_cubic_eq _ 0 (1 - 2 * a) 0 0 _ _
      (fun s => by simp only [outputVal, setIn, compute]; ring)
      (by simp only [truePartial, getIn]; ring)
  case mk.Ct.a =>
    exact hasDerivAt_of_cubic_eq _ 0 4 (-4) 0 _ _
      (fun s => by simp only [outputVal, setIn, compute]; ring)
      (by simp only [truePartial, getIn]; ring)
  case mk.Ct.Area =>
    exact hasDerivAt_of_cubic_eq _ (4 * a * (1 - a)) 0 0 0 _ _
      (fun s => by simp only [outputVal, setIn, compute]; ring)
      (by simp only [truePartial, getIn]; ring)
  case mk.Ct.rho =>
    exact hasDerivAt_of_cubic_eq _ (4 * a * (1 - a)) 0 0 0 _ _
      (fun s => by simp only [outputVal, setIn, compute]; ring)
      (by simp only [truePartial, getIn]; ring)
  case mk.Ct.Vu =>
    exact hasDerivAt_of_cubic_eq _ (4 * a * (1 - a)) 0 0 0 _ _
      (fun s => by simp only [outputVal, setIn, compute]; ring)
      (by simp only [truePartial, getIn]; ring)
  case mk.thrust.a =>
    exact hasDerivAt_of_cubic_eq _ 0 (2 * r * A * V ^ 2) (-(2 * r * A * V ^ 2)) 0 _ _
      (fun s => by simp only [outputVal, setIn, compute]; ring)
      (by simp only [truePartial, getIn]; ring)
  case mk.thrust.Area =>
    exact hasDerivAt_of_cubic_eq _ 0 (2 * a * (1 - a) * r * V ^ 2) 0 0 _ _
      (fun s => by simp only [outputVal, setIn, compute]; ring)
      (by simp only [truePartial, getIn]; ring)
  case mk.thrust.rho =>
    exact hasDerivAt_of_cubic_eq _ 0 (2 * a * (1 - a) * A * V ^ 2) 0 0 _ _
      (fun s => by simp only [outputVal, setIn, compute]; ring)
      (by simp only [truePartial, getIn]; ring)
  case mk.thrust.Vu =>
    exact hasDerivAt_of_cubic_eq _ 0 0 (2 * a * (1 - a) * r * A) 0 _ _
      (fun s => by simp only [outputVal, setIn, compute]; ring)
      (by simp only [truePartial, getIn]; ring)
  case mk.Cp.a =>
    exact hasDerivAt_of_cubic_eq _ 0 4 (-8) 4 _ _
      (fun s => by simp only [outputVal, setIn, compute]; ring)
      (by simp only [truePartial, getIn]; ring)
  case mk.Cp.Area =>
    exact hasDerivAt_of_cubic_eq _ (4 * a * (1 - a) ^ 2) 0 0 0 _ _
      (fun s => by simp only [outputVal, setIn, compute]; ring)
      (by simp only [truePartial, getIn]; ring)
  case mk.Cp.rho =>
    exact hasDerivAt_of_cubic_eq _ (4 * a * (1 - a) ^ 2) 0 0 0 _ _
      (fun s => by simp only [outputVal, setIn, compute]; ring)
      (by simp only [truePartial, getIn]; ring)
  case mk.Cp.Vu =>
    exact hasDerivAt_of_cubic_eq _ (4 * a * (1 - a) ^ 2) 0 0 0 _ _
      (fun s => by simp only [outputVal, setIn, compute]; ring)
      (by simp only [truePartial, getIn]; ring)
  case mk.power.a =>
    exact hasDerivAt_of_cubic_eq _ 0 (2 * r * A * V ^ 3) (-4 * r * A * V ^ 3) (2 * r * A * V ^ 3) _ _
      (fun s => by simp only [outputVal, setIn, compute]; ring)
      (by simp only [truePartial, getIn]; ring)
  case mk.power.Area =>
    exact hasDerivAt_of_cubic_eq _ 0 (2 * a * (1 - a) ^ 2 * r * V ^ 3) 0 0 _ _
      (fun s => by simp only [outputVal, setIn, compute]; ring)
      (by simp only [truePartial, getIn]; ring)
  case mk.power.rho =>
    exact hasDerivAt_of_cubic_eq _ 0 (2 * a * (1 - a) ^ 2 * A * V ^ 3) 0 0 _ _
      (fun s => by simp only [outputVal, setIn, compute]; ring)
      (by simp only [truePartial, getIn]; ring)
  case mk.power.Vu =>
    exact hasDerivAt_of_cubic_eq _ 0 0 0 (2 * a * (1 - a) ^ 2 * r * A) _ _
      (fun s => by simp only [outputVal, setIn, compute]; ring)
      (by simp only [truePartial, getIn]; ring)
/-- Lower bound of the `Area` design variable in `test_betz`
(`add_design_var('Area', lower=0., upper=1.)`). -/
def areaLowerBound : ℚ := 0

/-- Upper bound of the `Area` design variable in `test_betz`. -/
def areaUpperBound : ℚ := 1

/-- Initial value of `Area` set by the test's `IndepVarComp`
(`indeps.add_output('Area', 10.0, units='m**2')`). -/
def areaInitialValue : ℚ := 10

/-- Value of `rho` fixed by the test's `IndepVarComp`: `1.225 = 49/40`. -/
def rhoValue : ℚ := 49/40

/-- Value of `Vu` fixed by the test's `IndepVarComp`. -/
def vuValue : ℚ := 10

/-- Modelled from the spec: the SLSQP driver (the external framework's
gradient-based optimizer, not part of this file) converges on the
unconstrained Betz problem, i.e. it returns design-variable values
`a ∈ [0, 1]`, `Area ∈ [0, 1]` maximizing the objective `a_disk.Cp`
(declared with `scaler=-1`, so the minimization maximizes `Cp`) with
`rho` and `Vu` held at the values the `IndepVarComp` fixes. -/
def driverOptimum (a Area : ℚ) : Prop :=
  0 ≤ a ∧ a ≤ 1 ∧ 0 ≤ Area ∧ Area ≤ 1 ∧
  ∀ a2 Area2, 0 ≤ a2 → a2 ≤ 1 → 0 ≤ Area2 → Area2 ≤ 1 →
    (compute { a := a2, Area := Area2, rho := rhoValue, Vu := vuValue }).Cp ≤
    (compute { a := a, Area := Area, rho := rhoValue, Vu := vuValue }).Cp

/-- Modelled from the spec: `assert_rel_error` (from the framework's
`devtools.testutil`, not part of this file) checks a relative-tolerance
bound `|actual - desired| ≤ tol * |desired|`. -/
def assertRelError (actual desired tol : ℚ) : Prop :=
  |actual - desired| ≤ tol * |desired|

/-- The power-coefficient polynomial is bounded by the Betz limit on
`a ≤ 1`. -/
theorem cp_poly_le_betz (a : ℚ) (h1 : a ≤ 1) :
    4 * a * (1 - a) ^ 2 ≤ 16/27 := by
  nlinarith [mul_nonneg (sq_nonneg (a - 1/3)) (show (0:ℚ) ≤ 4/3 - a by linarith)]

/-- On `a ≤ 1` the power-coefficient polynomial attains the Betz limit
exactly at `a = 1/3`. -/
theorem cp_poly_eq_betz_iff (a : ℚ) (h1 : a ≤ 1) :
    4 * a * (1 - a) ^ 2 = 16/27 ↔ a = 1/3 := by
  constructor
  · intro h
    have key : (a - 1/3) ^ 2 * (4/3 - a) = 0 := by linear_combination (-1/4 : ℚ) * h
    rcases mul_eq_zero.1 key with hsq | hlin
    · have : a - 1/3 = 0 := by
        exact pow_eq_zero_iff (two_ne_zero) |>.1 hsq
      linarith
    · linarith
  · rintro rfl
    norm_num

/-- The `Cp` output of `compute` is the polynomial `4a(1-a)²`. -/
theorem compute_Cp_eq (x : Inputs) :
    (compute x).Cp = 4 * x.a * (1 - x.a) ^ 2 := by
  simp only [compute]
  ring

/-- C1: for every input quadruple `(a, Area, rho, Vu)`, `compute` writes
exactly `Vd = Vu(1-2a)`, `Vr = (Vu+Vd)/2`, `Ct = 4a(1-a)`,
`thrust = Ct·½ρ·Area·Vu²`, `Cp = Ct(1-a)` and `power = Cp·½ρ·Area·Vu³`
into the six output slots. -/
theorem C1_compute_outputs (x : Inputs) :
    (compute x).Vd = x.Vu * (1 - 2 * x.a) ∧
    (compute x).Vr = (x.Vu + (compute x).Vd) / 2 ∧
    (compute x).Ct = 4 * x.a * (1 - x.a) ∧
    (compute x).thrust = (compute x).Ct * (1/2 * x.rho * x.Area * x.Vu ^ 2) ∧
    (compute x).Cp = (compute x).Ct * (1 - x.a) ∧
    (compute x).power = (compute x).Cp * (1/2 * x.rho * x.Area * x.Vu ^ 3) := by
  refine ⟨?_, ?_, ?_, ?_, ?_, ?_⟩ <;> (simp only [compute]; try ring)

/-- C2: every Jacobian entry `compute_partials` supplies equals the true
partial derivative of the corresponding output of `compute` with respect
to the corresponding input. -/
theorem C2_partials_exact (x : Inputs) (p : OutVar × InVar) (d : ℚ)
    (h : jEntry (compute_partials x) p = some d) :
    HasDerivAt (fun t => outputVal p.1 (setIn p.2 x t)) d (getIn p.2 x) := by
  obtain ⟨o, i⟩ := p
  have key : d = truePartial o i x := by
    cases o <;> cases i <;> simp only [jEntry, Option.some.injEq] at h
    all_goals first
      | exact Option.noConfusion h
      | (rw [← h]; simp only [compute_partials, truePartial]; try ring)
  rw [key]
  exact truePartial_hasDerivAt o i x

/-- Witness for C2: the supplied entry `J['Ct','a']` evaluated at
`(a, Area, rho, Vu) = (0, 1, 1, 1)` is `4`, the true derivative there. -/
theorem C2_partials_exact_witness :
    HasDerivAt (fun t => outputVal OutVar.Ct (setIn InVar.a ⟨0, 1, 1, 1⟩ t)) 4
      (getIn InVar.a ⟨0, 1, 1, 1⟩) :=
  C2_partials_exact ⟨0, 1, 1, 1⟩ (OutVar.Ct, InVar.a) 4
    (by norm_num [jEntry, compute_partials])

/-- C5: `compute` and `compute_partials` are total: every input quadruple
yields a uniquely determined, defined result in every output slot and
every supplied Jacobian entry. -/
theorem C5_total_evaluation (x : Inputs) :
    (∃! o : Outputs, compute x = o) ∧ (∃! J : Jacobian, compute_partials x = J) :=
  ⟨⟨compute x, rfl, fun _ h => h.symm⟩, ⟨compute_partials x, rfl, fun _ h => h.symm⟩⟩

/-- C8: the outputs of `compute` satisfy `power = thrust * Vr`. -/
theorem C8_power_identity (x : Inputs) :
    (compute x).power = (compute x).thrust * (compute x).Vr := by
  simp only [compute]
  ring

/-- C9: the `Cp` output equals `4a(1-a)²`; on `a ∈ [0,1]` it is at most
`16/27`, with equality exactly at `a = 1/3`. -/
theorem C9_cp_maximum (x : Inputs) (h0 : 0 ≤ x.a) (h1 : x.a ≤ 1) :
    (compute x).Cp = 4 * x.a * (1 - x.a) ^ 2 ∧
    (compute x).Cp ≤ 16/27 ∧
    ((compute x).Cp = 16/27 ↔ x.a = 1/3) := by
  refine ⟨compute_Cp_eq x, ?_, ?_⟩
  · rw [compute_Cp_eq]
    exact cp_poly_le_betz x.a h1
  · rw [compute_Cp_eq]
    exact cp_poly_eq_betz_iff x.a h1

/-- Witness for C9 at `a = 1/3` with the test's initial `Area`, `rho`,
`Vu`. -/
theorem C9_cp_maximum_witness :
    (compute ⟨1/3, 10, 49/40, 10⟩).Cp = 4 * (1/3) * (1 - 1/3) ^ 2 ∧
    (compute ⟨1/3, 10, 49/40, 10⟩).Cp ≤ 16/27 ∧
    ((compute ⟨1/3, 10, 49/40, 10⟩).Cp = 16/27 ↔ (1/3 : ℚ) = 1/3) :=
  C9_cp_maximum ⟨1/3, 10, 49/40, 10⟩ (by norm_num) (by norm_num)

/-- C10: the `Ct` and `Cp` outputs depend only on the input `a`, and the
`Area` design variable's declared bounds `[0, 1]` exclude its initial
value `10.0`. -/
theorem C10_ct_cp_only_a (x y : Inputs) (h : x.a = y.a) :
    (compute x).Ct = (compute y).Ct ∧
    (compute x).Cp = (compute y).Cp ∧
    areaInitialValue ∉ Set.Icc areaLowerBound areaUpperBound := by
  refine ⟨?_, ?_, ?_⟩
  · simp only [compute, h]
  · simp only [compute, h]
  · norm_num [areaInitialValue, areaLowerBound, areaUpperBound, Set.mem_Icc]

/-- Witness for C10: two quadruples sharing `a = 1/2` but differing in
`Area`, `rho`, `Vu`. -/
theorem C10_ct_cp_only_a_witness :
    (compute ⟨1/2, 10, 49/40, 10⟩).Ct = (compute ⟨1/2, 1, 1, 1⟩).Ct ∧
    (compute ⟨1/2, 10, 49/40, 10⟩).Cp = (compute ⟨1/2, 1, 1, 1⟩).Cp ∧
    areaInitialValue ∉ Set.Icc areaLowerBound areaUpperBound :=
  C10_ct_cp_only_a ⟨1/2, 10, 49/40, 10⟩ ⟨1/2, 1, 1, 1⟩ rfl

/-- The point `a = 1/3`, `Area = 1/2` satisfies the modelled driver
optimum. -/
theorem driverOptimum_third_half : driverOptimum (1/3) (1/2) := by
  refine ⟨by norm_num, by norm_num, by norm_num, by norm_num, ?_⟩
  intro a2 Area2 h0 h1 hA0 hA1
  rw [compute_Cp_eq, compute_Cp_eq]
  have hb := cp_poly_le_betz a2 h1
  norm_num
  linarith

/-- C3: any converged optimum of the Betz problem as the test configures
it has `a = 1/3` and power coefficient exactly `16/27`, so the test's
assertion `assert_rel_error(prob['a_disk.Cp'], 16./27., 1e-4)` holds. -/
theorem C3_betz_convergence (a Area : ℚ) (h : driverOptimum a Area) :
    a = 1/3 ∧
    (compute { a := a, Area := Area, rho := rhoValue, Vu := vuValue }).Cp = 16/27 ∧
    assertRelError
      (compute { a := a, Area := Area, rho := rhoValue, Vu := vuValue }).Cp
      (16/27) (1/10000) := by
  obtain ⟨ha0, ha1, hA0, hA1, hmax⟩ := h
  have hup : (compute { a := a, Area := Area, rho := rhoValue, Vu := vuValue }).Cp
      ≤ 16/27 := by
    rw [compute_Cp_eq]
    exact cp_poly_le_betz a ha1
  have hlow : (16:ℚ)/27
      ≤ (compute { a := a, Area := Area, rho := rhoValue, Vu := vuValue }).Cp := by
    have h13 := hmax (1/3) Area (by norm_num) (by norm_num) hA0 hA1
    rw [compute_Cp_eq] at h13
    norm_num at h13
    exact h13
  have heq := le_antisymm hup hlow
  have hpoly : 4 * a * (1 - a) ^ 2 = 16/27 := by
    rw [compute_Cp_eq] at heq
    exact heq
  refine ⟨(cp_poly_eq_betz_iff a ha1).1 hpoly, heq, ?_⟩
  rw [heq]
  simp only [assertRelError]
  norm_num

/-- Witness for C3 at the converged point `a = 1/3`, `Area = 1/2`. -/
theorem C3_betz_convergence_witness :
    (1:ℚ)/3 = 1/3 ∧
    (compute { a := 1/3, Area := 1/2, rho := rhoValue, Vu := vuValue }).Cp = 16/27 ∧
    assertRelError
      (compute { a := 1/3, Area := 1/2, rho := rhoValue, Vu := vuValue }).Cp
      (16/27) (1/10000) :=
  C3_betz_convergence (1/3) (1/2) driverOptimum_third_half

/-- C4 counterexample: the pair `('Vd', 'Vu')` has everywhere-defined true
derivative `1 - 2a`, which at `a = 0` is `1 ≠ 0`, yet `compute_partials`
supplies no `J['Vd','Vu']` entry. -/
theorem C4_counterexample :
    jEntry (compute_partials ⟨0, 1, 1, 1⟩) (OutVar.Vd, InVar.Vu) = none ∧
    HasDerivAt (fun t => outputVal OutVar.Vd (setIn InVar.Vu ⟨0, 1, 1, 1⟩ t))
      (truePartial OutVar.Vd InVar.Vu ⟨0, 1, 1, 1⟩)
      (getIn InVar.Vu ⟨0, 1, 1, 1⟩) ∧
    truePartial OutVar.Vd InVar.Vu ⟨0, 1, 1, 1⟩ ≠ 0 :=
  ⟨rfl, truePartial_hasDerivAt _ _ _, by norm_num [truePartial]⟩

/-- C4 as amended: `compute_partials` supplies an entry for every
output/input pair whose true sensitivity is somewhere non-zero, with the
single exception of `('Vd', 'Vu')`. -/
theorem C4_supplied_nonzero (p : OutVar × InVar)
    (hne : p ≠ (OutVar.Vd, InVar.Vu))
    (hnz : ∃ (x : Inputs) (d : ℚ), d ≠ 0 ∧
      HasDerivAt (fun t => outputVal p.1 (setIn p.2 x t)) d (getIn p.2 x)) :
    ∀ x : Inputs, (jEntry (compute_partials x) p).isSome = true := by
  obtain ⟨o, i⟩ := p
  intro x
  cases o <;> cases i
  all_goals first
    | rfl
    | exact absurd rfl hne
    | (obtain ⟨y, d, hd, hD⟩ := hnz
       exact absurd (hD.unique (truePartial_hasDerivAt _ _ y))
         (by simpa [truePartial] using hd))

/-- Witness for C4 as amended: the pair `('thrust', 'Area')` has non-zero
derivative at `a = 1/2` and is supplied. -/
theorem C4_supplied_nonzero_witness :
    (jEntry (compute_partials ⟨0, 1, 1, 1⟩) (OutVar.thrust, InVar.Area)).isSome = true :=
  C4_supplied_nonzero (OutVar.thrust, InVar.Area) (by decide)
    ⟨⟨1/2, 1, 1, 1⟩, truePartial OutVar.thrust InVar.Area ⟨1/2, 1, 1, 1⟩,
     by norm_num [truePartial], truePartial_hasDerivAt _ _ _⟩
    ⟨0, 1, 1, 1⟩

/-- C6: `compute` returns the inputs map untouched and changes the
outputs map only at the six declared output keys; `compute_partials`
returns the inputs map untouched and changes the Jacobian map only at the
thirteen keys it assigns. -/
theorem C6_frame (ins outs : String → ℚ) (J : String × String → ℚ) :
    (computeDict ins outs).1 = ins ∧
    (computePartialsDict ins J).1 = ins ∧
    (∀ k, k ∉ outputKeys → (computeDict ins outs).2 k = outs k) ∧
    (∀ p, p ∉ jacobianKeys → (computePartialsDict ins J).2 p = J p) := by
  refine ⟨rfl, rfl, ?_, ?_⟩
  · intro k hk
    simp only [outputKeys, List.mem_cons, List.not_mem_nil, or_false, not_or] at hk
    obtain ⟨h1, h2, h3, h4, h5, h6⟩ := hk
    simp [computeDict, Function.update_apply, h1, h2, h3, h4, h5, h6]
  · intro p hp
    simp only [jacobianKeys, List.mem_cons, List.not_mem_nil, or_false, not_or] at hp
    obtain ⟨g1, g2, g3, g4, g5, g6, g7, g8, g9, g10, g11, g12, g13⟩ := hp
    simp [computePartialsDict, Function.update_apply,
      g1, g2, g3, g4, g5, g6, g7, g8, g9, g10, g11, g12, g13]

/-- C7: evaluation is deterministic and stateless: equal inputs give
equal outputs and equal Jacobians, and the values written at the declared
output and Jacobian keys do not depend on the prior contents of the maps
being written. -/
theorem C7_deterministic (x1 x2 : Inputs) (h : x1 = x2) :
    compute x1 = compute x2 ∧
    compute_partials x1 = compute_partials x2 ∧
    (∀ (ins outs1 outs2 : String → ℚ), ∀ k ∈ outputKeys,
      (computeDict ins outs1).2 k = (computeDict ins outs2).2 k) ∧
    (∀ (ins : String → ℚ) (J1 J2 : String × String → ℚ), ∀ p ∈ jacobianKeys,
      (computePartialsDict ins J1).2 p = (computePartialsDict ins J2).2 p) := by
  subst h
  refine ⟨rfl, rfl, ?_, ?_⟩
  · intro ins o1 o2 k hk
    fin_cases hk <;> simp [computeDict, Function.update_apply]
  · intro ins J1 J2 p hp
    fin_cases hp <;> simp [computePartialsDict, Function.update_apply]

/-- Witness for C7 at the test's initial point. -/
theorem C7_deterministic_witness :
    compute ⟨1/2, 10, 49/40, 10⟩ = compute ⟨1/2, 10, 49/40, 10⟩ ∧
    compute_partials ⟨1/2, 10, 49/40, 10⟩ = compute_partials ⟨1/2, 10, 49/40, 10⟩ ∧
    (∀ (ins outs1 outs2 : String → ℚ), ∀ k ∈ outputKeys,
      (computeDict ins outs1).2 k = (computeDict ins outs2).2 k) ∧
    (∀ (ins : String → ℚ) (J1 J2 : String × String → ℚ), ∀ p ∈ jacobianKeys,
      (computePartialsDict ins J1).2 p = (computePartialsDict ins J2).2 p) :=
  C7_deterministic ⟨1/2, 10, 49/40, 10⟩ ⟨1/2, 10, 49/40, 10⟩ rfl

/-- The stateful and the pure renderings of `compute` agree on every
declared output slot. -/
theorem computeDict_agrees_compute (ins outs : String → ℚ) :
    (computeDict ins outs).2 "Vd"
      = (compute ⟨ins "a", ins "Area", ins "rho", ins "Vu"⟩).Vd ∧
    (computeDict ins outs).2 "Vr"
      = (compute ⟨ins "a", ins "Area", ins "rho", ins "Vu"⟩).Vr ∧
    (computeDict ins outs).2 "Ct"
      = (compute ⟨ins "a", ins "Area", ins "rho", ins "Vu"⟩).Ct ∧
    (computeDict ins outs).2 "thrust"
      = (compute ⟨ins "a", ins "Area", ins "rho", ins "Vu"⟩).thrust ∧
    (computeDict ins outs).2 "Cp"
      = (compute ⟨ins "a", ins "Area", ins "rho", ins "Vu"⟩).Cp ∧
    (computeDict ins outs).2 "power"
      = (compute ⟨ins "a", ins "Area", ins "rho", ins "Vu"⟩).power := by
  refine ⟨?_, ?_, ?_, ?_, ?_, ?_⟩ <;>
    simp [computeDict, compute, Function.update_apply]

/-- The stateful and the pure renderings of `compute_partials` agree on
every assigned Jacobian entry. -/
theorem computePartialsDict_agrees (ins : String → ℚ) (J : String × String → ℚ) :
    let Jd := (computePartialsDict ins J).2
    let Jp := compute_partials ⟨ins "a", ins "Area", ins "rho", ins "Vu"⟩
    Jd ("Vr", "a") = Jp.Vr_a ∧ Jd ("Vr", "Vu") = Jp.Vr_Vu ∧
    Jd ("Vd", "a") = Jp.Vd_a ∧ Jd ("Ct", "a") = Jp.Ct_a ∧
    Jd ("thrust", "a") = Jp.thrust_a ∧ Jd ("thrust", "Area") = Jp.thrust_Area ∧
    Jd ("thrust", "rho") = Jp.thrust_rho ∧ Jd ("thrust", "Vu") = Jp.thrust_Vu ∧
    Jd ("Cp", "a") = Jp.Cp_a ∧
    Jd ("power", "a") = Jp.power_a ∧ Jd ("power", "Area") = Jp.power_Area ∧
    Jd ("power", "rho") = Jp.power_rho ∧ Jd ("power", "Vu") = Jp.power_Vu := by
  refine ⟨?_, ?_, ?_, ?_, ?_, ?_, ?_, ?_, ?_, ?_, ?_, ?_, ?_⟩ <;>
    simp [computePartialsDict, compute_partials, Function.update_apply]

end BetzLimit
